import Mathlib

/-!
Verification of the streamour media tools against their specification.

Each definition below is a shallow embedding of a function from the
repository's Python sources (`tools/generate-hls.py`,
`tools/convert-srt-to-vtt.py`, `tools/generate-thumbnails.py`,
`tools/fix-mobile-streaming.py`, `tools/generate-subtitles.py`).
Filesystem state is made explicit, machine effects that can fail are
modelled with `Option`/`Except`, and the supervisor's interaction with the
external encoder process is modelled as a step relation.
-/

namespace Streamour

/-- A file as the tools inspect it: its text content and its modification
time (`st_mtime`, abstracted to a natural number of time units). -/
structure FileData where
  content : String
  mtime : Nat
deriving DecidableEq

/-- Python's substring test `pat in content`. -/
def strContains (content pat : String) : Bool :=
  decide (pat.data <:+: content.data)

/-- The end-of-playlist marker tested by `is_hls_complete`
(generate-hls.py line 84). -/
def endlistMarker : String := "#EXT-X-ENDLIST"

/-- The `<mkv>.hls` output directory of one work item, as far as the tools
look at it: whether the directory itself is present, and the
`playlist.m3u8` file inside it when that file exists. -/
structure HlsDir where
  present : Bool
  playlist : Option FileData
deriving DecidableEq

/-- `is_hls_complete` (generate-hls.py lines 74-93): the playlist must
exist, contain the end-of-playlist marker, and be at least as new as the
source mkv.  Reads of an existing playlist are modelled as succeeding. -/
def is_hls_complete (d : HlsDir) (srcMtime : Nat) : Bool :=
  match d.playlist with
  | none => false
  | some p =>
    if strContains p.content endlistMarker then
      if srcMtime > p.mtime then false
      else true
    else false

/-- Control point of `generate_hls` after the encoder has been launched:
the stdout read loop (generate-hls.py lines 188-231), the post-loop
timeout monitor loop (lines 234-245), or the code after both loops
(line 247 onwards). -/
inductive SupPhase
  | reading
  | monitoring
  | finished
deriving DecidableEq

/-- One supervisor session interacting with the encoder process.
`exited` records whether `process.poll()` would return a value (the
process has terminated), `killed` whether `process.kill()` has been
called, `timedOut` the Python `timed_out` flag, and `elapsed` the
abstract wall clock `time.time() - start_time`. -/
structure SupState where
  phase : SupPhase
  exited : Bool
  killed : Bool
  timedOut : Bool
  elapsed : Nat
deriving DecidableEq

/-- Steps of the supervisor loop of `generate_hls` (generate-hls.py lines
188-245), interleaved with the environment step `procExit` (the encoder
terminating on its own; termination is permanent).
`readLine`: `readline` returned a line, the read loop continues (lines
189-231).  `readEofSpin`: `readline` returned the empty string but
`poll()` is `None`, so the break at lines 190-191 is not taken and the
loop spins.  `readEofBreak`: empty line and `poll() is not None`, the
read loop breaks - note this requires `exited = true`.  `monitorExit`:
the `while process.poll() is None` guard at line 237 is false and the
monitor loop ends.  `monitorTimeout`: the guard is true and the absolute
timeout is exceeded, so the process is killed and `timed_out` is set
(lines 239-244).  `monitorSleep`: the guard is true and no timeout yet,
so the monitor sleeps and polls again (line 245). -/
inductive SupStep (timeoutSeconds : Nat) : SupState → SupState → Prop
  | procExit (s : SupState) :
      s.exited = false → SupStep timeoutSeconds s { s with exited := true }
  | readLine (s : SupState) :
      s.phase = .reading →
      SupStep timeoutSeconds s { s with elapsed := s.elapsed + 1 }
  | readEofSpin (s : SupState) :
      s.phase = .reading → s.exited = false →
      SupStep timeoutSeconds s { s with elapsed := s.elapsed + 1 }
  | readEofBreak (s : SupState) :
      s.phase = .reading → s.exited = true →
      SupStep timeoutSeconds s { s with phase := .monitoring }
  | monitorExit (s : SupState) :
      s.phase = .monitoring → s.exited = true →
      SupStep timeoutSeconds s { s with phase := .finished }
  | monitorTimeout (s : SupState) :
      s.phase = .monitoring → s.exited = false →
      0 < timeoutSeconds → timeoutSeconds < s.elapsed →
      SupStep timeoutSeconds s
        { s with killed := true, timedOut := true, phase := .finished }
  | monitorSleep (s : SupState) :
      s.phase = .monitoring → s.exited = false →
      SupStep timeoutSeconds s { s with elapsed := s.elapsed + 1 }

/-- The supervisor state right after `subprocess.Popen` returns
(generate-hls.py line 174): the read loop is about to run, the process is
alive, nothing has been killed. -/
def supInit : SupState := ⟨.reading, false, false, false, 0⟩

/-- States the supervisor session can reach from a given state. -/
def SupReachable (timeoutSeconds : Nat) : SupState → SupState → Prop :=
  Relation.ReflTransGen (SupStep timeoutSeconds)

/-- The safety invariant of the supervisor: once the read loop has been
left, the process has already exited, and consequently neither
`process.kill()` nor the `timed_out` flag is ever reached. -/
def supInv (s : SupState) : Prop :=
  (s.phase ≠ SupPhase.reading → s.exited = true) ∧
    s.killed = false ∧ s.timedOut = false

/-- Modelled from the spec: the stall-timeout-capable variant of the HLS
generator is part of the repository but is not among the provided source
files (spec section 9 notes two variants of the generator, only one of
which has a stall timeout; the provided `generate-hls.py` is the one
without it).  This structure models the external encoder's observable
behavior at 1-second poll ticks, per spec section 4.2: whether the
process is still running at tick `t`, and whether progress output was
received during tick `t`. -/
structure ProcBehavior where
  running : Nat → Bool
  outputAt : Nat → Bool

/-- Outcome classification of the spec-modelled monitor loop: normal
process exit, absolute-timeout kill, or stall-timeout kill. -/
inductive MonitorOutcome
  | exited
  | timeout
  | stall
deriving DecidableEq

/-- Modelled from the spec (section 4.2): the monitor loop of the
stall-capable generator variant, which is not among the provided sources.
It polls at fixed 1-second ticks; at tick `t` it checks, in order,
whether the process has exited, whether the absolute timeout `T` (in
seconds; `0` = disabled) has been exceeded, and whether the time since
the last received output exceeds the stall timeout `S` (in seconds; `0` =
disabled); on either timeout trigger the process is forcibly terminated
and the outcome classified accordingly.  `fuel` bounds the number of
polls; `none` means the loop was still polling when the fuel ran out. -/
def monitorLoop (b : ProcBehavior) (T S : Nat) :
    Nat → Nat → Nat → Option MonitorOutcome
  | 0, _, _ => none
  | fuel + 1, t, lastOut =>
    if b.running t = false then some .exited
    else if 0 < T ∧ T < t then some .timeout
    else if 0 < S ∧ S < t - lastOut then some .stall
    else monitorLoop b T S fuel (t + 1) (if b.outputAt t then t else lastOut)

/-- The branch-relevant effect outcomes of one `generate_hls` invocation
(generate-hls.py lines 103-268).  The probes `get_video_codec` and
`get_video_duration` catch all of their own exceptions (lines 32-71) and
so are not failure sources.  `mkdirErr`: an exception raised by
`hls_dir.mkdir` at line 122, which sits outside the `try` that starts at
line 172.  `popenErr`: an exception raised by `subprocess.Popen` at line
174, inside the `try`.  `bodyErr`: an exception raised later inside the
`try` (read loop, monitor loop, cleanup, or stderr read).  `written`: the
`playlist.m3u8` present in the output directory once the encoder has
stopped.  `timedOut`: the `timed_out` flag tested at line 249 (provably
always false, see `generate_hls_timeout_never_fires`, but kept so the
cleanup branch is represented).  `returncode`: the encoder's exit
status.  `stderrText`: the encoder's collected stderr. -/
structure RunEnv where
  force : Bool
  mkdirErr : Option String
  popenErr : Option String
  bodyErr : Option String
  written : Option FileData
  timedOut : Bool
  returncode : Int
  stderrText : String

/-- `generate_hls` (generate-hls.py lines 103-268) as a function of the
effect outcomes, returning either an uncaught exception (`Except.error`)
or the `(success, message)` pair together with the final state of the
output directory.  Progress logging and the human-readable elapsed-time
portions of messages are abstracted away; message text keeps the code's
prefixes.  Control flow: skip check (lines 117-119), `mkdir` (line 122,
outside the `try`), `Popen` (line 174), the read and monitor loops, then
the failure-cleanup branch (lines 249-261) or success (lines 263-264);
any exception inside the `try` is caught at lines 266-268 and returned as
a failure with no cleanup. -/
def generate_hls (env : RunEnv) (d0 : HlsDir) (srcMtime : Nat) :
    Except String ((Bool × String) × HlsDir) :=
  if env.force = false ∧ is_hls_complete d0 srcMtime = true then
    .ok ((true, "Already exists (skipped)"), d0)
  else
    match env.mkdirErr with
    | some e => .error e
    | none =>
      match env.popenErr with
      | some e => .ok ((false, "Error: " ++ e), ⟨true, d0.playlist⟩)
      | none =>
        match env.bodyErr with
        | some e => .ok ((false, "Error: " ++ e), ⟨true, env.written⟩)
        | none =>
          if env.timedOut = true ∨ env.returncode ≠ 0 then
            if env.timedOut = true then
              .ok ((false, "Timeout after elapsed"), ⟨false, none⟩)
            else
              .ok ((false, "ffmpeg error: " ++ env.stderrText.take 200),
                ⟨false, none⟩)
          else
            .ok ((true, "Generated"), ⟨true, env.written⟩)

/-- An effect environment in which `hls_dir.mkdir` raises (for example
because a plain file already occupies the `<mkv>.hls` path). -/
def envMkdirFail : RunEnv :=
  { force := true, mkdirErr := some "FileExistsError: [Errno 17] File exists"
    popenErr := none, bodyErr := none, written := none, timedOut := false
    returncode := 0, stderrText := "" }

/-- An effect environment in which `subprocess.Popen` raises (for example
`ffmpeg` is not installed). -/
def envPopenFail : RunEnv :=
  { force := true, mkdirErr := none
    popenErr := some "FileNotFoundError: ffmpeg", bodyErr := none
    written := none, timedOut := false, returncode := 0, stderrText := "" }

/-- An effect environment in which the encoder exits with status 1. -/
def envEncoderFail : RunEnv :=
  { force := true, mkdirErr := none, popenErr := none, bodyErr := none
    written := some ⟨"#EXTM3U", 7⟩, timedOut := false
    returncode := 1, stderrText := "boom" }

/-- The final tally of `generate-hls.py`'s `main` (lines 396-431):
`(success_count, fail_count)` over the per-item success flags. -/
def hls_tally (results : List Bool) : Nat × Nat :=
  (results.count true, results.count false)

/-- The exit status of `generate-hls.py`'s `main` (line 434):
`sys.exit(0 if fail_count == 0 else 1)`. -/
def hls_exit (results : List Bool) : Nat :=
  if (hls_tally results).2 = 0 then 0 else 1

/-- The final tally of `generate-thumbnails.py`'s `main`
(lines 134-151): `(successful, failed)`. -/
def thumbnails_tally (results : List Bool) : Nat × Nat :=
  (results.count true, results.count false)

/-- The exit status of `generate-thumbnails.py`'s `main`: after printing
the tally the function returns (lines 145-151), so the interpreter exits
with status 0 regardless of the tally. -/
def thumbnails_exit (_results : List Bool) : Nat := 0

/-- The concurrent branch of `generate-hls.py`'s `main` (lines 399-417):
one future per pending item, with `futures[future]` mapping each
completed future back to the item that produced it; iterating
`as_completed(futures)` is modelled by an arbitrary completion order
(a permutation of the submitted items), and each completed future
contributes one `(item, outcome)` record. -/
def poolRecords {α β : Type} (outcome : α → β)
    (completionOrder : List α) : List (α × β) :=
  completionOrder.map fun it => (it, outcome it)

/-- The sequential branch of `generate-hls.py`'s `main` (lines 419-428):
items are processed and reported in input order. -/
def seqRecords {α β : Type} (outcome : α → β) (items : List α) :
    List (α × β) :=
  items.map fun it => (it, outcome it)

/-- The branch-relevant effect outcomes of one `fix_moov_position` call
(fix-mobile-streaming.py lines 84-122).  `runErr`: `subprocess.run`
itself raises (e.g. ffmpeg missing).  `tempWritten`: the content of the
temporary output file once the remux command has returned (none if
nothing was written).  `returncode`: the remux command's exit status.
`statOrMoveErr`: an exception between the returncode check and the
completed replacement (the `stat` calls at lines 109-110 or
`shutil.move` at line 113, with the same-directory move modelled as
atomic). -/
structure MoovEnv where
  runErr : Bool
  tempWritten : Option String
  returncode : Int
  statOrMoveErr : Bool

/-- The two files `fix_moov_position` touches: the original mp4 and the
sibling `<stem>.tmp.mp4` temporary, each identified by its content. -/
structure MoovFs where
  original : String
  temp : Option String
deriving DecidableEq

/-- `fix_moov_position` (fix-mobile-streaming.py lines 84-122) as a
function of the effect outcomes: on a nonzero remux exit the temp file is
unlinked and `False` returned (lines 102-106); on any caught exception
the temp file is unlinked if present and `False` returned (lines
118-122); only after a zero exit and successful stats does `shutil.move`
replace the original with the remuxed content (line 113). -/
def fix_moov_position (env : MoovEnv) (fs : MoovFs) : Bool × MoovFs :=
  if env.runErr then
    (false, { fs with temp := none })
  else if env.returncode ≠ 0 then
    (false, { fs with temp := none })
  else
    match env.tempWritten with
    | none => (false, { fs with temp := none })
    | some t =>
      if env.statOrMoveErr then
        (false, { fs with temp := none })
      else
        (true, { original := t, temp := none })

/-- Python's whitespace class (ASCII part), used by `str.strip` and by
the regex class `\s`. -/
def isPySpace (c : Char) : Bool :=
  c = ' ' || c = '\t' || c = '\n' || c = '\r' || c = '\x0b' || c = '\x0c'

/-- Python `str.strip()`: remove leading and trailing whitespace. -/
def pyStrip (cs : List Char) : List Char :=
  ((cs.dropWhile isPySpace).reverse.dropWhile isPySpace).reverse

/-- The tail of a match of the block-separator regex `\n\s*\n`
(convert-srt-to-vtt.py line 43) after its leading newline: greedily match
`\s*` and then the final `\n`, returning the input remaining after the
match, or `none` when the pattern cannot match here.  Greedy matching
with backtracking selects the last newline of the maximal whitespace
run. -/
def sepTail : List Char → Option (List Char)
  | [] => none
  | c :: cs =>
    if isPySpace c then
      match sepTail cs with
      | some r => some r
      | none => if c = '\n' then some cs else none
    else none

/-- Prepend a character to the first chunk of a split result. -/
def consHead (c : Char) : List (List Char) → List (List Char)
  | [] => [[c]]
  | l :: ls => (c :: l) :: ls

/-- `re.split(r'\n\s*\n', s)` (convert-srt-to-vtt.py line 43), scanning
left to right: at each newline try to complete a greedy separator match;
on a match, end the current chunk and continue after the match.  The
`fuel` argument (at least the input length, see `pySplitBlank`) makes the
recursion structural. -/
def pySplitBlankF : Nat → List Char → List (List Char)
  | 0, cs => [cs]
  | _ + 1, [] => [[]]
  | fuel + 1, c :: cs =>
    if c = '\n' then
      match sepTail cs with
      | some r => [] :: pySplitBlankF fuel r
      | none => consHead c (pySplitBlankF fuel cs)
    else consHead c (pySplitBlankF fuel cs)

/-- `re.split(r'\n\s*\n', s)` with adequate fuel. -/
def pySplitBlank (cs : List Char) : List (List Char) :=
  pySplitBlankF cs.length cs

/-- Python `str.split('\n')`. -/
def splitNl : List Char → List (List Char)
  | [] => [[]]
  | c :: cs => if c = '\n' then [] :: splitNl cs else consHead c (splitNl cs)

/-- Python `'\n'.flatten(lines)`. -/
def joinNl : List (List Char) → List Char
  | [] => []
  | [l] => l
  | l :: ls => l ++ '\n' :: joinNl ls

/-- The timestamp-line test `'-->' in line`
(convert-srt-to-vtt.py line 65). -/
def hasArrow (l : List Char) : Bool :=
  decide ("-->".data <:+: l)

/-- The loop at convert-srt-to-vtt.py lines 64-68: find the first line
containing `-->`; on success return that line together with the lines
after it (`lines[text_start_idx:]`). -/
def findTimestamp : List (List Char) → Option (List Char × List (List Char))
  | [] => none
  | l :: ls =>
    if hasArrow l then some (l, ls)
    else findTimestamp ls

/-- `convert_srt_timestamp` (convert-srt-to-vtt.py lines 17-22):
`str.replace(',', '.')`. -/
def convert_srt_timestamp (l : List Char) : List Char :=
  l.map fun c => if c = ',' then '.' else c

/-- One block's contribution to the output
(convert-srt-to-vtt.py lines 45-81): skip whitespace-only blocks, strip
the block, split into lines, skip blocks with fewer than two lines or
without a `-->` line, and otherwise emit the converted timestamp line, a
newline, the joined text lines, and a blank line. -/
def processBlock (block : List Char) : List Char :=
  if pyStrip block = [] then []
  else
    if (splitNl (pyStrip block)).length < 2 then []
    else
      match findTimestamp (splitNl (pyStrip block)) with
      | none => []
      | some (ts, text) =>
        convert_srt_timestamp ts ++ '\n' :: (joinNl text ++ ['\n', '\n'])

/-- The content transform of `convert_srt_to_vtt`
(convert-srt-to-vtt.py lines 39-81): the `WEBVTT` header and a blank
line, then each block's contribution in order. -/
def convert_srt_content (srt : List Char) : List Char :=
  "WEBVTT\n\n".data ++
    ((pySplitBlank (pyStrip srt)).map processBlock).flatten

/-- String-level wrapper of the converter's content transform. -/
def convert_srt_to_vtt_content (srt : String) : String :=
  ⟨convert_srt_content srt.data⟩

/-- What the claim says one kept or dropped block contributes: a block
with fewer than two lines or without a `-->` line is dropped; a kept
block contributes its first `-->` line with every comma replaced by a
period, then its remaining text lines unchanged, then a blank line. -/
def claimBlockOut (lines : List (List Char)) : List Char :=
  if lines.length < 2 then []
  else
    match findTimestamp lines with
    | none => []
    | some (ts, text) =>
      convert_srt_timestamp ts ++ '\n' :: (joinNl text ++ ['\n', '\n'])

/-- What the claim says the whole output is, for an input presented as a
list of blocks of lines: the `WEBVTT` header followed by a blank line,
then the kept blocks' contributions in order. -/
def claimVtt (blocks : List (List (List Char))) : List Char :=
  "WEBVTT\n\n".data ++ (blocks.map claimBlockOut).flatten

/-- Join a list of blocks with blank-line separators: the shape of an SRT
input "whose blocks are separated by blank lines". -/
def joinBlank : List (List Char) → List Char
  | [] => []
  | [b] => b
  | b :: bs => b ++ '\n' :: '\n' :: joinBlank bs

/-- Render structured blocks of lines to the flat SRT text. -/
def renderSrt (blocks : List (List (List Char))) : List Char :=
  joinBlank (blocks.map joinNl)

/-- The first character of the line exists and is not whitespace. -/
def headNotWs (l : List Char) : Bool :=
  match l.head? with
  | some a => !isPySpace a
  | none => false

/-- The last character of the line exists and is not whitespace. -/
def lastNotWs (l : List Char) : Bool :=
  match l.getLast? with
  | some b => !isPySpace b
  | none => false

/-- A well-formed SRT line for the blank-line-separated input shape: no
embedded newline and not beginning or ending with whitespace (in
particular, not a blank line). -/
def goodLineB (l : List Char) : Bool :=
  headNotWs l && lastNotWs l && !(l.contains '\n')

/-- A well-formed block: a nonempty list of well-formed lines. -/
def goodBlockB (lines : List (List Char)) : Bool :=
  !lines.isEmpty && lines.all goodLineB

/-- A well-formed blank-line-separated SRT input, as a list of blocks. -/
def goodBlocksB (blocks : List (List (List Char))) : Bool :=
  blocks.all goodBlockB

/-- Every character of the list, if any, begins with a non-whitespace
character. -/
def goodStart (cs : List Char) : Prop :=
  ∀ a, cs.head? = some a → isPySpace a = false

/-- Prepend a whole prefix to the first chunk of a split result. -/
def consPre (t : List Char) : List (List Char) → List (List Char)
  | [] => [t]
  | l :: ls => (t ++ l) :: ls

/-- The filesystem state one srt→vtt conversion touches
(convert-srt-to-vtt.py lines 24-92): the source text and the sibling
`.vtt` output file, when it exists. -/
structure SrtFs where
  srtContent : String
  vtt : Option String
deriving DecidableEq

/-- `convert_srt_to_vtt` at the file level (convert-srt-to-vtt.py lines
24-92): if the output file already exists, return it without rewriting
anything (lines 29-31); otherwise read the source, convert it and write
the output; a read/write exception is caught and yields `none` (lines
90-92, modelled with the filesystem unchanged). -/
def convert_srt_to_vtt (ioErr : Bool) (fs : SrtFs) : Option String × SrtFs :=
  match fs.vtt with
  | some v => (some v, fs)
  | none =>
    if ioErr then (none, fs)
    else
      (some (convert_srt_to_vtt_content fs.srtContent),
        ⟨fs.srtContent, some (convert_srt_to_vtt_content fs.srtContent)⟩)

/-- An effect environment for a fully successful encode: every effect
succeeds and the encoder leaves a finished playlist newer than the
source. -/
def envSuccess : RunEnv :=
  { force := true, mkdirErr := none, popenErr := none, bodyErr := none
    written := some ⟨"#EXTM3U\n#EXT-X-ENDLIST\n", 5⟩, timedOut := false
    returncode := 0, stderrText := "" }

/-- Claim C3: the completion checker returns complete iff the output
playlist exists, its content contains the end-of-playlist marker
`#EXT-X-ENDLIST`, and the source's modification time is not newer than the
playlist's; if any of the three conditions fails it returns not
complete. -/
theorem is_hls_complete_iff (d : HlsDir) (srcMtime : Nat) :
    is_hls_complete d srcMtime = true ↔
      ∃ p, d.playlist = some p ∧
        strContains p.content endlistMarker = true ∧ srcMtime ≤ p.mtime := by
  cases d with
  | mk present playlist =>
    cases playlist with
    | none => simp [is_hls_complete]
    | some p =>
      simp only [is_hls_complete, Option.some.injEq]
      constructor
      · intro h
        by_cases hm : strContains p.content endlistMarker = true
        · by_cases hf : srcMtime > p.mtime
          · simp [hm, hf] at h
          · exact ⟨p, rfl, hm, Nat.le_of_not_lt hf⟩
        · simp [hm] at h
      · rintro ⟨q, hq, hm, hf⟩
        cases hq
        simp [hm, Nat.not_lt.mpr hf]

theorem supStep_inv {T : Nat} {s t : SupState} (hs : supInv s)
    (h : SupStep T s t) : supInv t := by
  obtain ⟨hph, hk, hto⟩ := hs
  cases h with
  | procExit he => exact ⟨fun _ => rfl, hk, hto⟩
  | readLine hr => exact ⟨hph, hk, hto⟩
  | readEofSpin hr he => exact ⟨hph, hk, hto⟩
  | readEofBreak hr he => exact ⟨fun _ => he, hk, hto⟩
  | monitorExit hm he => exact ⟨fun _ => he, hk, hto⟩
  | monitorTimeout hm he _ _ =>
      exact absurd (hph (by simp [hm])) (by simp [he])
  | monitorSleep hm he =>
      exact absurd (hph (by simp [hm])) (by simp [he])

/-- Claim C1 (refuted; the code contradicts the tool's own documented
`--timeout` behavior): in every reachable state of the supervisor session,
for any absolute timeout, the process has never been killed and the
outcome has never been classified as a timeout.  The stdout read loop
(lines 188-231) breaks only when `process.poll() is not None`, i.e. only
after the encoder has already terminated on its own, so the timeout
monitor loop at lines 237-245 never executes its body and the
`process.kill()` at line 241 is dead code. -/
theorem generate_hls_timeout_never_fires (T : Nat) (s : SupState)
    (h : SupReachable T supInit s) : s.killed = false ∧ s.timedOut = false := by
  have : supInv s := by
    induction h with
    | refl => exact ⟨fun hc => (hc rfl).elim, rfl, rfl⟩
    | tail _ hstep ih => exact supStep_inv ih hstep
  exact ⟨this.2.1, this.2.2⟩

/-- Witness for C1's theorem at a concrete state: the initial state is
reachable (with absolute timeout of 60 seconds) and the theorem applies
to it. -/
theorem generate_hls_timeout_never_fires_witness :
    supInit.killed = false ∧ supInit.timedOut = false :=
  generate_hls_timeout_never_fires 60 supInit Relation.ReflTransGen.refl

theorem monitorLoop_stalls (b : ProcBehavior) (T S t0 : Nat) (hS : 0 < S)
    (hrun : ∀ t, b.running t = true)
    (hsilent : ∀ t, t0 ≤ t → b.outputAt t = false)
    (hT : T = 0 ∨ t0 + S + 1 ≤ T) :
    ∀ fuel t lastOut, lastOut ≤ t0 → t ≤ t0 + S + 1 →
      t0 + S + 2 ≤ t + fuel →
      monitorLoop b T S fuel t lastOut = some MonitorOutcome.stall := by
  intro fuel
  induction fuel with
  | zero => intro t lastOut _ ht hfuel; omega
  | succ n ih =>
    intro t lastOut hlast ht hfuel
    have hr : b.running t = true := hrun t
    have hTfalse : ¬(0 < T ∧ T < t) := by
      rcases hT with h0 | hbig
      · omega
      · omega
    by_cases hstall : 0 < S ∧ S < t - lastOut
    · simp [monitorLoop, hr, hTfalse, hstall]
    · have hle : t - lastOut ≤ S := by
        rcases Nat.lt_or_ge S (t - lastOut) with h | h
        · exact absurd ⟨hS, h⟩ hstall
        · exact h
      have hnext : t + 1 ≤ t0 + S + 1 := by omega
      have hlast2 : (if b.outputAt t then t else lastOut) ≤ t0 := by
        by_cases hout : b.outputAt t = true
        · have : t < t0 := by
            by_contra hc
            have := hsilent t (by omega)
            simp [this] at hout
          simp [hout]; omega
        · simp [hout]; exact hlast
      simp only [monitorLoop]
      rw [if_neg (by simp [hr]), if_neg hTfalse, if_neg hstall]
      exact ih (t + 1) _ hlast2 hnext (by omega)

/-- Claim C2 (spec-modelled): given a stall timeout `S > 0` and a process
that stops producing progress output from tick `t0` on while still
running, the monitor terminates it and reports a stall outcome within
`t0 + S + 2` polls, regardless of the absolute timeout setting - for any
absolute timeout that is disabled (`T = 0`) or has not expired first. -/
theorem generate_hls_stall_outcome (b : ProcBehavior) (T S t0 : Nat)
    (hS : 0 < S) (hrun : ∀ t, b.running t = true)
    (hsilent : ∀ t, t0 ≤ t → b.outputAt t = false)
    (hT : T = 0 ∨ t0 + S + 1 ≤ T) :
    monitorLoop b T S (t0 + S + 2) 0 0 = some MonitorOutcome.stall :=
  monitorLoop_stalls b T S t0 hS hrun hsilent hT (t0 + S + 2) 0 0
    (Nat.zero_le _) (by omega) (by omega)

/-- Witness for C2's theorem: a process that runs forever and emits
output only at ticks 0 and 1, with stall timeout 3 seconds and the
absolute timeout disabled, is terminated with a stall outcome. -/
theorem generate_hls_stall_outcome_witness :
    monitorLoop ⟨fun _ => true, fun t => decide (t < 2)⟩ 0 3 (2 + 3 + 2) 0 0 =
      some MonitorOutcome.stall :=
  generate_hls_stall_outcome ⟨fun _ => true, fun t => decide (t < 2)⟩ 0 3 2
    (by decide) (fun _ => rfl)
    (fun t ht => by simp; omega) (Or.inl rfl)

/-- Claim C4 counterexample: a filesystem error from `hls_dir.mkdir`
(line 122) is raised outside the `try` block and propagates out of
`generate_hls` instead of being converted into a failure result. -/
theorem generate_hls_mkdir_exception_escapes :
    generate_hls envMkdirFail ⟨false, none⟩ 0 =
      Except.error "FileExistsError: [Errno 17] File exists" := rfl

/-- Claim C4 as amended: provided the output-directory creation at line
122 does not raise, no exception propagates out of `generate_hls`: every
error raised inside the `try` (subprocess launch included) is converted
into a `(success, message)` result. -/
theorem generate_hls_no_exception_after_mkdir (env : RunEnv) (d0 : HlsDir)
    (m : Nat) (h : env.mkdirErr = none) :
    ∃ r : (Bool × String) × HlsDir, generate_hls env d0 m = Except.ok r := by
  unfold generate_hls
  split
  · exact ⟨_, rfl⟩
  · rw [h]
    cases hp : env.popenErr with
    | some e => exact ⟨_, rfl⟩
    | none =>
      cases hb : env.bodyErr with
      | some e => exact ⟨_, rfl⟩
      | none =>
        by_cases ht : env.timedOut = true ∨ env.returncode ≠ 0
        · rw [if_pos ht]
          by_cases h2 : env.timedOut = true
          · rw [if_pos h2]; exact ⟨_, rfl⟩
          · rw [if_neg h2]; exact ⟨_, rfl⟩
        · rw [if_neg ht]; exact ⟨_, rfl⟩

/-- Witness for C4's amended theorem: with a succeeding `mkdir` and a
failing encoder, `generate_hls` returns a result pair. -/
theorem generate_hls_no_exception_after_mkdir_witness :
    ∃ r : (Bool × String) × HlsDir,
      generate_hls envEncoderFail ⟨false, none⟩ 0 = Except.ok r :=
  generate_hls_no_exception_after_mkdir envEncoderFail ⟨false, none⟩ 0 rfl

/-- Claim C5 counterexample: when `subprocess.Popen` raises, the handler
at lines 266-268 returns the failure result without any cleanup, so the
output directory created at line 122 is still present afterward - the
claim says it is absent on every non-success outcome. -/
theorem generate_hls_exception_skips_cleanup :
    generate_hls envPopenFail ⟨false, none⟩ 0 =
      Except.ok ((false, "Error: FileNotFoundError: ffmpeg"),
        ⟨true, none⟩) := rfl

/-- Claim C5 as amended: on non-success outcomes that the supervisor
itself detects - the timeout flag or a nonzero encoder exit status, with
no exception raised inside the `try` - all output files are deleted and
the output directory removed (lines 249-261), so the directory is absent
afterward and the completion checker returns not complete; on the
caught-exception path no cleanup is performed. -/
theorem generate_hls_detected_failure_cleanup (env : RunEnv) (d0 : HlsDir)
    (m : Nat) (msg : String) (d : HlsDir)
    (hpop : env.popenErr = none) (hbody : env.bodyErr = none)
    (hres : generate_hls env d0 m = Except.ok ((false, msg), d)) :
    d.present = false ∧ d.playlist = none ∧ is_hls_complete d m = false := by
  unfold generate_hls at hres
  split at hres
  · exact absurd hres (by simp)
  · cases hmk : env.mkdirErr with
    | some e => rw [hmk] at hres; exact absurd hres (by simp)
    | none =>
      rw [hmk, hpop, hbody] at hres
      by_cases ht : env.timedOut = true ∨ env.returncode ≠ 0
      · rw [if_pos ht] at hres
        by_cases h2 : env.timedOut = true
        · rw [if_pos h2] at hres
          simp only [Except.ok.injEq, Prod.mk.injEq] at hres
          rw [← hres.2]
          exact ⟨rfl, rfl, rfl⟩
        · rw [if_neg h2] at hres
          simp only [Except.ok.injEq, Prod.mk.injEq] at hres
          rw [← hres.2]
          exact ⟨rfl, rfl, rfl⟩
      · rw [if_neg ht] at hres
        exact absurd hres (by simp)

set_option maxRecDepth 10000 in
/-- Witness for C5's amended theorem: with an encoder exiting with status
1, the returned directory state is absent and the completion checker
rejects it. -/
theorem generate_hls_detected_failure_cleanup_witness :
    (⟨false, none⟩ : HlsDir).present = false ∧
      (⟨false, none⟩ : HlsDir).playlist = none ∧
      is_hls_complete ⟨false, none⟩ 0 = false :=
  generate_hls_detected_failure_cleanup envEncoderFail ⟨false, none⟩ 0
    "ffmpeg error: boom" ⟨false, none⟩ rfl rfl rfl

/-- Claim C8 counterexample: a thumbnail batch whose single item failed
reports one failure in the tally yet the process exits with status 0,
contradicting the claim that any failed item yields a non-zero exit. -/
theorem thumbnails_exit_zero_despite_failure :
    (thumbnails_tally [false]).2 = 1 ∧ thumbnails_exit [false] = 0 :=
  ⟨rfl, rfl⟩

/-- Claim C8 as amended: for the HLS generator the process exit code is
zero iff every processed item succeeded (after reporting the
succeeded/failed tally); the thumbnail generator reports its tally but
always exits with status 0, even when items failed. -/
theorem batch_exit_codes (results : List Bool) :
    (hls_exit results = 0 ↔ results.count false = 0) ∧
      thumbnails_exit results = 0 := by
  refine ⟨?_, rfl⟩
  unfold hls_exit hls_tally
  by_cases h : results.count false = 0
  · simp [h]
  · simp [h]

/-- Claim C9: for every list of pending items and every completion order
(any permutation of the items, i.e. any pool size), the coordinator
produces exactly as many outcome records as items, each record carries
the outcome of its own item, and the multiset of reported items is
exactly the input; in sequential mode both execution and reporting
follow the input order. -/
theorem pool_records_correct {α β : Type} (outcome : α → β)
    (items completionOrder : List α)
    (hperm : completionOrder.Perm items) :
    (poolRecords outcome completionOrder).length = items.length ∧
      (∀ r ∈ poolRecords outcome completionOrder, r.2 = outcome r.1) ∧
      ((poolRecords outcome completionOrder).map Prod.fst).Perm items ∧
      (seqRecords outcome items).map Prod.fst = items ∧
      (∀ r ∈ seqRecords outcome items, r.2 = outcome r.1) := by
  refine ⟨?_, ?_, ?_, ?_, ?_⟩
  · simp [poolRecords, hperm.length_eq]
  · intro r hr
    simp only [poolRecords, List.mem_map] at hr
    obtain ⟨it, _, rfl⟩ := hr
    rfl
  · have : (poolRecords outcome completionOrder).map Prod.fst =
        completionOrder := by
      simp only [poolRecords, List.map_map]
      have : (Prod.fst ∘ fun it : α => (it, outcome it)) = id := rfl
      rw [this, List.map_id]
    rw [this]; exact hperm
  · simp only [seqRecords, List.map_map]
    have : (Prod.fst ∘ fun it : α => (it, outcome it)) = id := rfl
    rw [this, List.map_id]
  · intro r hr
    simp only [seqRecords, List.mem_map] at hr
    obtain ⟨it, _, rfl⟩ := hr
    rfl

/-- Witness for C9's theorem: three items completing in the order
`[2, 3, 1]` still yield three records, correct per-item outcomes, and the
full item multiset. -/
theorem pool_records_correct_witness :
    (poolRecords (fun n => n % 2 == 0) [2, 3, 1]).length = [1, 2, 3].length ∧
      (∀ r ∈ poolRecords (fun n => n % 2 == 0) [2, 3, 1],
        r.2 = (r.1 % 2 == 0)) ∧
      ((poolRecords (fun n => n % 2 == 0) [2, 3, 1]).map Prod.fst).Perm
        [1, 2, 3] ∧
      (seqRecords (fun n => n % 2 == 0) [1, 2, 3]).map Prod.fst =
        [1, 2, 3] ∧
      (∀ r ∈ seqRecords (fun n => n % 2 == 0) [1, 2, 3],
        r.2 = (r.1 % 2 == 0)) :=
  pool_records_correct (fun n => n % 2 == 0) [1, 2, 3] [2, 3, 1]
    (by decide)

/-- Claim C10: the in-place moov fix is atomic: whenever
`fix_moov_position` reports failure (nonzero remux exit or any caught
exception) the original file is unchanged and the temporary file is
gone; and the original is replaced only when the call reports success, in
which case it holds the fully remuxed content and the temporary file is
gone. -/
theorem fix_moov_position_atomic (env : MoovEnv) (fs : MoovFs) :
    ((fix_moov_position env fs).1 = false →
      (fix_moov_position env fs).2.original = fs.original ∧
        (fix_moov_position env fs).2.temp = none) ∧
    ((fix_moov_position env fs).2.original ≠ fs.original →
      (fix_moov_position env fs).1 = true ∧
        env.runErr = false ∧ env.returncode = 0 ∧
        env.tempWritten = some (fix_moov_position env fs).2.original ∧
        (fix_moov_position env fs).2.temp = none) := by
  unfold fix_moov_position
  by_cases h1 : env.runErr
  · simp [h1]
  · by_cases h2 : env.returncode ≠ 0
    · simp [h1, h2]
    · cases hw : env.tempWritten with
      | none => simp [h1, h2, hw]
      | some t =>
        by_cases h3 : env.statOrMoveErr
        · simp [h1, h2, h3, hw]
        · simp [h1, h2, h3, hw]
          intro hne
          omega

/-- The characters remaining after a separator match are strictly fewer
than before it. -/
theorem sepTail_length : ∀ {cs r : List Char},
    sepTail cs = some r → r.length < cs.length := by
  intro cs
  induction cs with
  | nil => intro r h; simp [sepTail] at h
  | cons c cs ih =>
    intro r h
    simp only [sepTail] at h
    by_cases hws : isPySpace c = true
    · rw [if_pos hws] at h
      cases hst : sepTail cs with
      | some r2 =>
        rw [hst] at h
        simp only [Option.some.injEq] at h
        subst h
        exact Nat.lt_trans (ih hst) (Nat.lt_succ_self _)
      | none =>
        rw [hst] at h
        by_cases hc : c = '\n'
        · rw [if_pos hc] at h
          simp only [Option.some.injEq] at h
          subst h
          exact Nat.lt_succ_self _
        · rw [if_neg hc] at h
          simp at h
    · rw [if_neg hws] at h
      simp at h

/-- `consHead` never produces the empty split. -/
theorem consHead_ne_nil (c : Char) (l : List (List Char)) :
    consHead c l ≠ [] := by
  cases l <;> simp [consHead]

/-- The splitter never returns an empty list of chunks. -/
theorem pySplitBlankF_ne_nil : ∀ (fuel : Nat) (cs : List Char),
    pySplitBlankF fuel cs ≠ [] := by
  intro fuel
  induction fuel with
  | zero => intro cs; simp [pySplitBlankF]
  | succ n ih =>
    intro cs
    cases cs with
    | nil => simp [pySplitBlankF]
    | cons c cs =>
      simp only [pySplitBlankF]
      by_cases hc : c = '\n'
      · rw [if_pos hc]
        cases hst : sepTail cs with
        | some r => simp
        | none => exact consHead_ne_nil c _
      · rw [if_neg hc]
        exact consHead_ne_nil c _

/-- The splitter on the empty input, at any fuel. -/
theorem pySplitBlankF_nil (fuel : Nat) : pySplitBlankF fuel [] = [[]] := by
  cases fuel <;> rfl

/-- Any two adequate fuels give the splitter the same result. -/
theorem pySplitBlankF_congr : ∀ (f1 f2 : Nat) (cs : List Char),
    cs.length ≤ f1 → cs.length ≤ f2 →
    pySplitBlankF f1 cs = pySplitBlankF f2 cs := by
  intro f1
  induction f1 with
  | zero =>
    intro f2 cs h1 _
    have hcs : cs = [] := List.length_eq_zero.mp (Nat.le_zero.mp h1)
    subst hcs
    rw [pySplitBlankF_nil, pySplitBlankF_nil]
  | succ n ih =>
    intro f2 cs h1 h2
    cases cs with
    | nil => rw [pySplitBlankF_nil, pySplitBlankF_nil]
    | cons c cs =>
      cases f2 with
      | zero => simp at h2
      | succ m =>
        have hcs : cs.length ≤ n := by
          simp only [List.length_cons] at h1; omega
        have hcs2 : cs.length ≤ m := by
          simp only [List.length_cons] at h2; omega
        simp only [pySplitBlankF]
        by_cases hc : c = '\n'
        · rw [if_pos hc, if_pos hc]
          cases hst : sepTail cs with
          | some r =>
            have hr := sepTail_length hst
            show [] :: pySplitBlankF n r = [] :: pySplitBlankF m r
            rw [ih m r (by omega) (by omega)]
          | none =>
            show consHead c (pySplitBlankF n cs) =
              consHead c (pySplitBlankF m cs)
            rw [ih m cs hcs hcs2]
        · rw [if_neg hc, if_neg hc, ih m cs hcs hcs2]

/-- The separator tail cannot match when the next character is not
whitespace. -/
theorem sepTail_none_of_head {d : Char} (hd : isPySpace d = false)
    (w : List Char) : sepTail (d :: w) = none := by
  simp [sepTail, hd]

/-- A full separator match `\n\s*\n` across a bare blank-line separator:
when what follows the two newlines starts with a non-whitespace character
(or is empty), the greedy match consumes exactly the two newlines. -/
theorem sepTail_double_nl (rest : List Char) (h : goodStart rest) :
    sepTail ('\n' :: rest) = some rest := by
  have hnl : isPySpace '\n' = true := by decide
  cases rest with
  | nil => rfl
  | cons d r =>
    have hd : isPySpace d = false := h d rfl
    show (if isPySpace '\n' = true then
        match sepTail (d :: r) with
        | some r2 => some r2
        | none => if '\n' = '\n' then some (d :: r) else none
      else none) = some (d :: r)
    rw [if_pos hnl, sepTail_none_of_head hd]
    rfl

theorem consHead_consPre (c : Char) (t : List Char)
    (l : List (List Char)) : consHead c (consPre t l) = consPre (c :: t) l := by
  cases l <;> rfl

theorem consPre_nil_of_ne (l : List (List Char)) (h : l ≠ []) :
    consPre [] l = l := by
  cases l with
  | nil => exact absurd rfl h
  | cons x xs => simp [consPre]

/-- Walking the splitter across a chunk none of whose newlines can start
a separator match (relative to what follows the chunk): the chunk is
accumulated onto the head of the split of the remainder. -/
theorem pySplitBlankF_chunk : ∀ (t after : List Char) (fuel : Nat),
    (t ++ after).length ≤ fuel →
    (∀ p s, t = p ++ '\n' :: s → sepTail (s ++ after) = none) →
    pySplitBlankF fuel (t ++ after) =
      consPre t (pySplitBlankF (fuel - t.length) after) := by
  intro t
  induction t with
  | nil =>
    intro after fuel hlen _
    simp only [List.nil_append, List.length_nil, Nat.sub_zero]
    exact (consPre_nil_of_ne _ (pySplitBlankF_ne_nil _ _)).symm
  | cons c t ih =>
    intro after fuel hlen hsep
    cases fuel with
    | zero => simp at hlen
    | succ n =>
      have hlen2 : (t ++ after).length ≤ n := by
        simp only [List.cons_append, List.length_cons] at hlen; omega
      have hsep2 : ∀ p s, t = p ++ '\n' :: s → sepTail (s ++ after) = none :=
        fun p s hps => hsep (c :: p) s (by rw [hps]; rfl)
      have harith : n + 1 - (c :: t).length = n - t.length := by
        simp only [List.length_cons]; omega
      rw [harith]
      show pySplitBlankF (n + 1) (c :: (t ++ after)) = _
      by_cases hc : c = '\n'
      · subst hc
        have hst : sepTail (t ++ after) = none := hsep [] t rfl
        show (if ('\n' : Char) = '\n' then
            match sepTail (t ++ after) with
            | some r => [] :: pySplitBlankF n r
            | none => consHead '\n' (pySplitBlankF n (t ++ after))
          else consHead '\n' (pySplitBlankF n (t ++ after))) = _
        rw [if_pos rfl, hst]
        show consHead '\n' (pySplitBlankF n (t ++ after)) = _
        rw [ih after n hlen2 hsep2, consHead_consPre]
      · show (if c = '\n' then
            match sepTail (t ++ after) with
            | some r => [] :: pySplitBlankF n r
            | none => consHead c (pySplitBlankF n (t ++ after))
          else consHead c (pySplitBlankF n (t ++ after))) = _
        rw [if_neg hc, ih after n hlen2 hsep2, consHead_consPre]

/-- A well-formed line is nonempty and begins with non-whitespace. -/
theorem goodLineB_head {l : List Char} (h : goodLineB l = true) :
    ∃ a t, l = a :: t ∧ isPySpace a = false := by
  cases l with
  | nil => simp [goodLineB, headNotWs] at h
  | cons a t =>
    refine ⟨a, t, rfl, ?_⟩
    simp only [goodLineB, headNotWs, List.head?_cons, Bool.and_eq_true,
      Bool.not_eq_true'] at h
    exact h.1.1

/-- A well-formed line ends with non-whitespace. -/
theorem goodLineB_last {l : List Char} (h : goodLineB l = true) :
    ∃ b, l.getLast? = some b ∧ isPySpace b = false := by
  simp only [goodLineB, lastNotWs, Bool.and_eq_true] at h
  obtain ⟨⟨_, h2⟩, _⟩ := h
  cases hg : l.getLast? with
  | none => rw [hg] at h2; simp at h2
  | some b =>
    rw [hg] at h2
    simp only [Bool.not_eq_true'] at h2
    exact ⟨b, rfl, h2⟩

/-- A well-formed line contains no newline. -/
theorem goodLineB_no_nl {l : List Char} (h : goodLineB l = true) :
    '\n' ∉ l := by
  simp only [goodLineB, Bool.and_eq_true, Bool.not_eq_true'] at h
  have h2 := h.2
  rw [List.contains, List.elem_eq_mem] at h2
  simpa using h2

/-- The joined lines of a well-formed block start with a non-whitespace
character. -/
theorem joinNl_good_head : ∀ (lines : List (List Char)), lines ≠ [] →
    lines.all goodLineB = true →
    ∃ d s, joinNl lines = d :: s ∧ isPySpace d = false := by
  intro lines hne hall
  cases lines with
  | nil => exact absurd rfl hne
  | cons l ls =>
    simp only [List.all_cons, Bool.and_eq_true] at hall
    obtain ⟨a, t, rfl, ha⟩ := goodLineB_head hall.1
    cases ls with
    | nil => exact ⟨a, t, rfl, ha⟩
    | cons x xs => exact ⟨a, t ++ '\n' :: joinNl (x :: xs), rfl, ha⟩

/-- The joined lines of a well-formed block end with a non-whitespace
character. -/
theorem joinNl_good_last : ∀ (lines : List (List Char)), lines ≠ [] →
    lines.all goodLineB = true →
    ∃ b, (joinNl lines).getLast? = some b ∧ isPySpace b = false := by
  intro lines
  induction lines with
  | nil => intro hne _; exact absurd rfl hne
  | cons l ls ih =>
    intro _ hall
    simp only [List.all_cons, Bool.and_eq_true] at hall
    cases ls with
    | nil =>
      obtain ⟨b, hb, hws⟩ := goodLineB_last hall.1
      exact ⟨b, hb, hws⟩
    | cons x xs =>
      obtain ⟨b, hb, hws⟩ := ih (by simp) hall.2
      refine ⟨b, ?_, hws⟩
      show (l ++ '\n' :: joinNl (x :: xs)).getLast? = some b
      rw [List.getLast?_append_of_ne_nil _ (by simp)]
      obtain ⟨d, s, hds, _⟩ :=
        joinNl_good_head (x :: xs) (by simp) hall.2
      rw [show ('\n' :: joinNl (x :: xs)) = ['\n'] ++ joinNl (x :: xs) from
        rfl]
      rw [List.getLast?_append_of_ne_nil _ (by rw [hds]; simp)]
      exact hb

/-- Any decomposition of a well-formed block's joined lines at a newline
leaves a remainder that starts with a non-whitespace character. -/
theorem joinNl_decomp : ∀ (lines : List (List Char)),
    lines.all goodLineB = true →
    ∀ p s, joinNl lines = p ++ '\n' :: s →
    ∃ d s2, s = d :: s2 ∧ isPySpace d = false := by
  intro lines
  induction lines with
  | nil =>
    intro _ p s h
    simp only [joinNl] at h
    exact absurd h.symm (by simp)
  | cons l ls ih =>
    intro hall p s h
    simp only [List.all_cons, Bool.and_eq_true] at hall
    cases ls with
    | nil =>
      simp only [joinNl] at h
      exact absurd (h ▸ List.mem_append_right p (List.mem_cons_self _ _))
        (goodLineB_no_nl hall.1)
    | cons x xs =>
      simp only [joinNl] at h
      rcases List.append_eq_append_iff.mp h with ⟨a2, hp, hb⟩ | ⟨c2, hl, hd⟩
      · cases a2 with
        | nil =>
          simp only [List.nil_append] at hb
          obtain ⟨d, s2, hds, hws⟩ :=
            joinNl_good_head (x :: xs) (by simp) hall.2
          injection hb with _ h2
          exact ⟨d, s2, by rw [← h2, hds], hws⟩
        | cons a a2 =>
          injection hb with ha hrest
          exact ih hall.2 a2 s hrest
      · cases c2 with
        | nil =>
          simp only [List.nil_append] at hd
          injection hd.symm with _ h2
          obtain ⟨d, s2, hds, hws⟩ :=
            joinNl_good_head (x :: xs) (by simp) hall.2
          exact ⟨d, s2, by rw [← h2, hds], hws⟩
        | cons c c2 =>
          injection hd with hc hrest
          rw [← hc] at hl
          exact absurd
            (hl ▸ List.mem_append_right p (List.mem_cons_self _ _))
            (goodLineB_no_nl hall.1)

/-- No newline inside a well-formed block's joined lines can start a
separator match, whatever follows the block. -/
theorem joinNl_sepFree (lines : List (List Char))
    (h : lines.all goodLineB = true) (after : List Char) :
    ∀ p s, joinNl lines = p ++ '\n' :: s → sepTail (s ++ after) = none := by
  intro p s hps
  obtain ⟨d, s2, rfl, hd⟩ := joinNl_decomp lines h p s hps
  exact sepTail_none_of_head hd _

/-- Splitting an input without newlines is the identity chunk. -/
theorem splitNl_no_nl : ∀ {l : List Char}, '\n' ∉ l → splitNl l = [l] := by
  intro l
  induction l with
  | nil => intro _; rfl
  | cons c cs ih =>
    intro h
    have hc : ¬c = '\n' := fun hh => h (hh ▸ List.mem_cons_self _ _)
    simp only [splitNl, if_neg hc]
    rw [ih (fun hm => h (List.mem_cons_of_mem _ hm))]
    rfl

/-- Splitting at an explicit newline after a newline-free prefix. -/
theorem splitNl_append : ∀ {l J : List Char}, '\n' ∉ l →
    splitNl (l ++ '\n' :: J) = l :: splitNl J := by
  intro l
  induction l with
  | nil =>
    intro J _
    show splitNl ('\n' :: J) = [] :: splitNl J
    simp [splitNl]
  | cons c cs ih =>
    intro J h
    have hc : ¬c = '\n' := fun hh => h (hh ▸ List.mem_cons_self _ _)
    show splitNl (c :: (cs ++ '\n' :: J)) = (c :: cs) :: splitNl J
    simp only [splitNl, if_neg hc]
    rw [ih (fun hm => h (List.mem_cons_of_mem _ hm))]
    rfl

/-- `str.split('\n')` inverts `'\n'.join` on newline-free lines. -/
theorem splitNl_joinNl : ∀ (lines : List (List Char)), lines ≠ [] →
    (∀ l ∈ lines, '\n' ∉ l) → splitNl (joinNl lines) = lines := by
  intro lines
  induction lines with
  | nil => intro hne _; exact absurd rfl hne
  | cons l ls ih =>
    intro _ hnl
    cases ls with
    | nil =>
      show splitNl (joinNl [l]) = [l]
      simp only [joinNl]
      exact splitNl_no_nl (hnl l (List.mem_cons_self _ _))
    | cons x xs =>
      show splitNl (l ++ '\n' :: joinNl (x :: xs)) = l :: x :: xs
      rw [splitNl_append (hnl l (List.mem_cons_self _ _))]
      rw [ih (by simp) (fun y hy => hnl y (List.mem_cons_of_mem _ hy))]

/-- `str.strip()` is the identity on text that neither starts nor ends
with whitespace. -/
theorem pyStrip_id (cs : List Char)
    (h1 : ∀ a, cs.head? = some a → isPySpace a = false)
    (h2 : ∀ b, cs.getLast? = some b → isPySpace b = false) :
    pyStrip cs = cs := by
  cases cs with
  | nil => rfl
  | cons a t =>
    have ha : isPySpace a = false := h1 a rfl
    unfold pyStrip
    rw [List.dropWhile_cons, ha]
    simp only [Bool.false_eq_true, if_false]
    cases hrev : (a :: t).reverse with
    | nil => exact absurd hrev (by simp)
    | cons b r =>
      have hb : (a :: t).getLast? = some b := by
        rw [← List.head?_reverse, hrev]; rfl
      rw [List.dropWhile_cons, h2 b hb]
      simp only [Bool.false_eq_true, if_false]
      rw [← hrev, List.reverse_reverse]

/-- Unpack a well-formed block. -/
theorem goodBlockB_parts {lines : List (List Char)}
    (h : goodBlockB lines = true) :
    lines ≠ [] ∧ lines.all goodLineB = true := by
  simp only [goodBlockB, Bool.and_eq_true, Bool.not_eq_true'] at h
  refine ⟨?_, h.2⟩
  cases lines with
  | nil => exact absurd h.1 (by simp)
  | cons x xs => simp

/-- A well-formed rendered input starts with a non-whitespace
character. -/
theorem renderSrt_good_head : ∀ (blocks : List (List (List Char))),
    blocks ≠ [] → goodBlocksB blocks = true →
    ∃ d s, renderSrt blocks = d :: s ∧ isPySpace d = false := by
  intro blocks hne hall
  cases blocks with
  | nil => exact absurd rfl hne
  | cons b bs =>
    have hall2 : goodBlockB b = true := by
      simp only [goodBlocksB, List.all_cons, Bool.and_eq_true] at hall
      exact hall.1
    have hgb := goodBlockB_parts hall2
    obtain ⟨d, s, hds, hws⟩ := joinNl_good_head b hgb.1 hgb.2
    cases bs with
    | nil =>
      exact ⟨d, s, by rw [show renderSrt [b] = joinNl b from rfl, hds], hws⟩
    | cons b2 bs2 =>
      refine ⟨d, s ++ '\n' :: '\n' :: renderSrt (b2 :: bs2), ?_, hws⟩
      rw [show renderSrt (b :: b2 :: bs2) =
        joinNl b ++ '\n' :: '\n' :: renderSrt (b2 :: bs2) from rfl, hds]
      rfl

/-- A well-formed rendered input ends with a non-whitespace character. -/
theorem renderSrt_good_last : ∀ (blocks : List (List (List Char))),
    blocks ≠ [] → goodBlocksB blocks = true →
    ∃ e, (renderSrt blocks).getLast? = some e ∧ isPySpace e = false := by
  intro blocks
  induction blocks with
  | nil => intro hne _; exact absurd rfl hne
  | cons b bs ih =>
    intro _ hall
    have hga : goodBlockB b = true ∧ goodBlocksB bs = true := by
      simp only [goodBlocksB, List.all_cons, Bool.and_eq_true] at hall
      exact hall
    cases bs with
    | nil =>
      obtain ⟨hbne, hlines⟩ := goodBlockB_parts hga.1
      obtain ⟨e, he, hws⟩ := joinNl_good_last b hbne hlines
      exact ⟨e, he, hws⟩
    | cons b2 bs2 =>
      obtain ⟨e, he, hws⟩ := ih (by simp) hga.2
      refine ⟨e, ?_, hws⟩
      show (joinNl b ++ '\n' :: '\n' :: renderSrt (b2 :: bs2)).getLast? =
        some e
      rw [List.getLast?_append_of_ne_nil _ (by simp)]
      rw [show ('\n' :: '\n' :: renderSrt (b2 :: bs2)) =
        ['\n', '\n'] ++ renderSrt (b2 :: bs2) from rfl]
      obtain ⟨d, s, hds, _⟩ := renderSrt_good_head (b2 :: bs2) (by simp) hga.2
      rw [List.getLast?_append_of_ne_nil _ (by rw [hds]; simp)]
      exact he

/-- The splitter recovers exactly the blocks from a well-formed
blank-line-separated rendering. -/
theorem pySplitBlankF_render : ∀ (blocks : List (List (List Char))),
    blocks ≠ [] → goodBlocksB blocks = true →
    ∀ fuel, (renderSrt blocks).length ≤ fuel →
    pySplitBlankF fuel (renderSrt blocks) = blocks.map joinNl := by
  intro blocks
  induction blocks with
  | nil => intro hne _; exact absurd rfl hne
  | cons b bs ih =>
    intro _ hall fuel hlen
    have hga : goodBlockB b = true ∧ goodBlocksB bs = true := by
      simp only [goodBlocksB, List.all_cons, Bool.and_eq_true] at hall
      exact hall
    obtain ⟨hbne, hblines⟩ := goodBlockB_parts hga.1
    cases bs with
    | nil =>
      rw [show renderSrt [b] = joinNl b from rfl] at hlen ⊢
      have hchunk := pySplitBlankF_chunk (joinNl b) [] fuel
        (by simpa using hlen) (joinNl_sepFree b hblines [])
      rw [List.append_nil] at hchunk
      rw [hchunk, pySplitBlankF_nil]
      simp [consPre]
    | cons b2 bs2 =>
      rw [show renderSrt (b :: b2 :: bs2) =
        joinNl b ++ '\n' :: '\n' :: renderSrt (b2 :: bs2) from rfl]
        at hlen ⊢
      rw [pySplitBlankF_chunk (joinNl b)
        ('\n' :: '\n' :: renderSrt (b2 :: bs2)) fuel hlen
        (joinNl_sepFree b hblines _)]
      obtain ⟨d, s, hds, hws⟩ :=
        renderSrt_good_head (b2 :: bs2) (by simp) hga.2
      have hgs : goodStart (renderSrt (b2 :: bs2)) := by
        intro a ha
        rw [hds, List.head?_cons, Option.some.injEq] at ha
        exact ha ▸ hws
      have hlen2 : (renderSrt (b2 :: bs2)).length + 2 ≤
          fuel - (joinNl b).length := by
        rw [List.length_append] at hlen
        simp only [List.length_cons] at hlen
        omega
      cases hm : fuel - (joinNl b).length with
      | zero => omega
      | succ m2 =>
        show consPre (joinNl b)
          (if ('\n' : Char) = '\n' then
            match sepTail ('\n' :: renderSrt (b2 :: bs2)) with
            | some r => [] :: pySplitBlankF m2 r
            | none =>
              consHead '\n' (pySplitBlankF m2 ('\n' :: renderSrt (b2 :: bs2)))
          else
            consHead '\n'
              (pySplitBlankF m2 ('\n' :: renderSrt (b2 :: bs2)))) = _
        rw [if_pos rfl, sepTail_double_nl _ hgs]
        show consPre (joinNl b)
          ([] :: pySplitBlankF m2 (renderSrt (b2 :: bs2))) = _
        rw [ih (by simp) hga.2 m2 (by omega)]
        simp [consPre]

/-- The converter's per-block processing agrees with the claim's
description on any well-formed block. -/
theorem processBlock_joinNl (lines : List (List Char))
    (h : goodBlockB lines = true) :
    processBlock (joinNl lines) = claimBlockOut lines := by
  obtain ⟨hne, hall⟩ := goodBlockB_parts h
  have hnl : ∀ l ∈ lines, '\n' ∉ l := by
    intro l hl
    rw [List.all_eq_true] at hall
    exact goodLineB_no_nl (hall l hl)
  have hstrip : pyStrip (joinNl lines) = joinNl lines := by
    apply pyStrip_id
    · intro a ha
      obtain ⟨d, s, hds, hws⟩ := joinNl_good_head lines hne hall
      rw [hds, List.head?_cons, Option.some.injEq] at ha
      exact ha ▸ hws
    · intro bb hb
      obtain ⟨e, he, hws⟩ := joinNl_good_last lines hne hall
      rw [he, Option.some.injEq] at hb
      exact hb ▸ hws
  have hjoin_ne : joinNl lines ≠ [] := by
    obtain ⟨d, s, hds, _⟩ := joinNl_good_head lines hne hall
    rw [hds]; simp
  unfold processBlock
  rw [hstrip, splitNl_joinNl lines hne hnl, if_neg hjoin_ne]
  rfl

/-- Claim C7: for every SRT input whose blocks are separated by blank
lines (each block a nonempty list of lines that neither start nor end
with whitespace and contain no embedded newline), the converter's output
begins with the `WEBVTT` header followed by a blank line, drops every
block that lacks a `-->` timestamp line or has fewer than two lines, and
for each kept block emits its timestamp line with every comma replaced by
a period followed by the block's text lines unchanged. -/
theorem convert_srt_to_vtt_correct (blocks : List (List (List Char)))
    (h : goodBlocksB blocks = true) :
    convert_srt_to_vtt_content ⟨renderSrt blocks⟩ = ⟨claimVtt blocks⟩ := by
  cases blocks with
  | nil => rfl
  | cons b bs =>
    have hstrip : pyStrip (renderSrt (b :: bs)) = renderSrt (b :: bs) := by
      apply pyStrip_id
      · intro a ha
        obtain ⟨d, s, hds, hws⟩ := renderSrt_good_head (b :: bs) (by simp) h
        rw [hds, List.head?_cons, Option.some.injEq] at ha
        exact ha ▸ hws
      · intro e he2
        obtain ⟨e2, he, hws⟩ := renderSrt_good_last (b :: bs) (by simp) h
        rw [he, Option.some.injEq] at he2
        exact he2 ▸ hws
    have hsplit : pySplitBlank (renderSrt (b :: bs)) =
        (b :: bs).map joinNl := by
      unfold pySplitBlank
      exact pySplitBlankF_render (b :: bs) (by simp) h _ (le_refl _)
    unfold convert_srt_to_vtt_content
    congr 1
    show convert_srt_content (renderSrt (b :: bs)) = claimVtt (b :: bs)
    unfold convert_srt_content claimVtt
    rw [hstrip, hsplit, List.map_map]
    congr 2
    apply List.map_congr_left
    intro x hx
    have hxg : goodBlockB x = true := by
      rw [goodBlocksB, List.all_eq_true] at h
      exact h x hx
    exact processBlock_joinNl x hxg

/-- Witness for C7's theorem: the spec's end-to-end scenario, a subtitle
file with a malformed block (no timestamp line) and a well-formed block
whose comma-delimited timestamp becomes period-delimited. -/
theorem convert_srt_to_vtt_correct_witness :
    goodBlocksB [["1".data, "Hello world".data],
      ["2".data, "00:00:01,000 --> 00:00:03,000".data,
        "Hi there".data]] = true ∧
    convert_srt_to_vtt_content
        ⟨renderSrt [["1".data, "Hello world".data],
          ["2".data, "00:00:01,000 --> 00:00:03,000".data,
            "Hi there".data]]⟩ =
      ⟨claimVtt [["1".data, "Hello world".data],
        ["2".data, "00:00:01,000 --> 00:00:03,000".data,
          "Hi there".data]]⟩ :=
  ⟨by decide, convert_srt_to_vtt_correct _ (by decide)⟩

/-- Claim C6: after one successful run of a tool, the completion or
existence check for that item's output returns complete, and a second run
with default flags skips the item and performs no re-work.  For the HLS
generator this holds under the external toolkit's success contract (a
zero-status encode leaves a playlist containing the end marker and at
least as new as the source); for the subtitle converter the check is the
output file's existence. -/
theorem run_once_then_skip (env : RunEnv) (d0 : HlsDir) (m : Nat)
    (p : FileData)
    (hmk : env.mkdirErr = none) (hpo : env.popenErr = none)
    (hbo : env.bodyErr = none) (hto : env.timedOut = false)
    (hrc : env.returncode = 0) (hw : env.written = some p)
    (hmark : strContains p.content endlistMarker = true)
    (hfresh : m ≤ p.mtime) (fs : SrtFs) (hv : fs.vtt = none) :
    (∃ d msg, generate_hls env d0 m = Except.ok ((true, msg), d) ∧
      is_hls_complete d m = true ∧
      ∀ env2 : RunEnv, env2.force = false →
        generate_hls env2 d m =
          Except.ok ((true, "Already exists (skipped)"), d)) ∧
    (convert_srt_to_vtt false fs =
        (some (convert_srt_to_vtt_content fs.srtContent),
          ⟨fs.srtContent, some (convert_srt_to_vtt_content fs.srtContent)⟩) ∧
      ∀ e2 : Bool, convert_srt_to_vtt e2
          ⟨fs.srtContent, some (convert_srt_to_vtt_content fs.srtContent)⟩ =
        (some (convert_srt_to_vtt_content fs.srtContent),
          ⟨fs.srtContent,
            some (convert_srt_to_vtt_content fs.srtContent)⟩)) := by
  constructor
  · obtain ⟨fo, mk, po, bo, w, tou, rc, st⟩ := env
    simp only at hmk hpo hbo hto hrc hw
    subst hmk; subst hpo; subst hbo; subst hto; subst hrc; subst hw
    have hcomp : is_hls_complete ⟨true, some p⟩ m = true := by
      simp [is_hls_complete, hmark, Nat.not_lt.mpr hfresh]
    by_cases hskip :
        (⟨fo, none, none, none, some p, false, 0, st⟩ : RunEnv).force =
          false ∧ is_hls_complete d0 m = true
    · refine ⟨d0, "Already exists (skipped)", ?_, hskip.2, ?_⟩
      · unfold generate_hls
        rw [if_pos hskip]
      · intro env2 hf2
        unfold generate_hls
        rw [if_pos ⟨hf2, hskip.2⟩]
    · refine ⟨⟨true, some p⟩, "Generated", ?_, hcomp, ?_⟩
      · unfold generate_hls
        rw [if_neg hskip]
        rfl
      · intro env2 hf2
        unfold generate_hls
        rw [if_pos ⟨hf2, hcomp⟩]
  · obtain ⟨sc, v⟩ := fs
    simp only at hv
    subst hv
    exact ⟨rfl, fun e2 => rfl⟩

/-- Witness for C6's theorem: a concrete successful encode plus a
concrete subtitle conversion, both of which are skipped on the second
run. -/
theorem run_once_then_skip_witness :
    (∃ d msg, generate_hls envSuccess ⟨false, none⟩ 3 =
        Except.ok ((true, msg), d) ∧
      is_hls_complete d 3 = true ∧
      ∀ env2 : RunEnv, env2.force = false →
        generate_hls env2 d 3 =
          Except.ok ((true, "Already exists (skipped)"), d)) ∧
    (convert_srt_to_vtt false ⟨"00:00:01,000 --> 00:00:02,000", none⟩ =
        (some (convert_srt_to_vtt_content
          "00:00:01,000 --> 00:00:02,000"),
          ⟨"00:00:01,000 --> 00:00:02,000",
            some (convert_srt_to_vtt_content
              "00:00:01,000 --> 00:00:02,000")⟩) ∧
      ∀ e2 : Bool, convert_srt_to_vtt e2
          ⟨"00:00:01,000 --> 00:00:02,000",
            some (convert_srt_to_vtt_content
              "00:00:01,000 --> 00:00:02,000")⟩ =
        (some (convert_srt_to_vtt_content
          "00:00:01,000 --> 00:00:02,000"),
          ⟨"00:00:01,000 --> 00:00:02,000",
            some (convert_srt_to_vtt_content
              "00:00:01,000 --> 00:00:02,000")⟩)) :=
  run_once_then_skip envSuccess ⟨false, none⟩ 3
    ⟨"#EXTM3U\n#EXT-X-ENDLIST\n", 5⟩ rfl rfl rfl rfl rfl rfl (by decide)
    (by decide) ⟨"00:00:01,000 --> 00:00:02,000", none⟩ rfl

end Streamour
